import Mathlib

set_option autoImplicit false

namespace DevGraphql

/-! Shallow embedding of the corona-school dev-graphql interactive CLI
(`src/index.js`, with `src/unnamed/part_000` an earlier revision of the same
core).  Machine strings are Lean `String`s; JavaScript truthiness of the
values that actually occur is modelled explicitly at each use site. -/

/-! ### Characters and small string helpers -/

def openBrace : Char := '\x7b'

def closeBrace : Char := '\x7d'

/-- `" ".repeat(n)` from the source. -/
def spaces (n : Nat) : String := String.mk (List.replicate n ' ')

/-! ### Operation trees (`buildQuery` result shape) and `queryTreeToString`
(src/index.js:170-187).  An OperationTree is a JS object mapping each field
name to `\x7b fields: OperationTree \x7d`; `Object.entries` enumerates the
entries in insertion order, so the object is embedded as an ordered
association list. -/

inductive OpTree where
  | node : List (String × OpTree) → OpTree

def OpTree.fields : OpTree → List (String × OpTree)
  | .node cs => cs

/-- The inner `addQuery(query, depth)` accumulator of `queryTreeToString`
(src/index.js:173-182), written as a function returning the appended text:
for each entry `key`, emit the indent and the key; when the entry has child
fields, emit an opening brace, the children at `depth + 2` and a matching
closing brace line, otherwise just end the line. -/
def addQuery : List (String × OpTree) → Nat → String
  | [], _ => ""
  | (key, .node kids) :: rest, depth =>
    spaces depth ++ key ++
      (if kids.length ≠ 0 then
        " \x7b\n" ++ addQuery kids (depth + 2) ++ spaces depth ++ "\x7d\n"
      else "\n") ++
      addQuery rest depth

/-- `queryTreeToString` (src/index.js:170-187): `query \x7b`, the rendered
entries starting at depth 2, and the closing brace. -/
def queryTreeToString (query : OpTree) : String :=
  "query \x7b\n" ++ addQuery query.fields 2 ++ "\x7d"

/-! ### The query runner `runQuery` (src/index.js:57-104)

The HTTP transport is abstracted to the response it yields: an HTTP status
and, when the body parses as JSON, the parsed GraphQL result.  The `data`
payload is kept polymorphic. -/

structure GqlResult (α : Type) where
  errors : Option (List String)
  data : Option α

structure HttpResponse (α : Type) where
  status : Nat
  body : Option (GqlResult α)

inductive RunError where
  | httpError (status : Nat)
  | queryError (messages : List String)
  | jsonError

/-- node-fetch `response.ok`: status in the 2xx range. -/
def responseOk (status : Nat) : Bool := 200 ≤ status && status < 300

/-- `runQuery` (src/index.js:57-104).  A non-ok status throws `HTTPError`
before the body is ever parsed as JSON (src/index.js:74-78); only then is the
body parsed (src/index.js:80); a truthy `result.errors` (any present array,
even empty — JS arrays are always truthy) throws `QueryError`
(src/index.js:84-93); otherwise `result.data` is returned. -/
def runQuery {α : Type} (response : HttpResponse α) : Except RunError (Option α) :=
  if !responseOk response.status then .error (.httpError response.status)
  else
    match response.body with
    | none => .error .jsonError
    | some result =>
      match result.errors with
      | some messages => .error (.queryError messages)
      | none => .ok result.data

/-! ### File-content operation classification in `main` (src/index.js:398-412) -/

/-- `needle.isPrefixOf hay` on character lists, spelled out. -/
def listStartsWith : List Char → List Char → Bool
  | [], _ => true
  | _ :: _, [] => false
  | a :: as, b :: bs => a == b && listStartsWith as bs

def listHasSub (needle : List Char) : List Char → Bool
  | [] => listStartsWith needle []
  | b :: bs => listStartsWith needle (b :: bs) || listHasSub needle bs

/-- JS `s.includes(sub)`: substring containment. -/
def jsIncludes (s sub : String) : Bool := listHasSub sub.data s.data

inductive OpKind where
  | query
  | mutation
deriving DecidableEq

/-- The classification of a loaded file in `main` (src/index.js:398-412):
`fileContent.includes("query")` is checked first, then
`fileContent.includes("mutation")`, else the `Unknown Query type` error. -/
def mainClassifyContent (fileContent : String) : Option OpKind :=
  if jsIncludes fileContent "query" then some OpKind.query
  else if jsIncludes fileContent "mutation" then some OpKind.mutation
  else none

/-! ### `getTypeName` and the introspected type objects (src/index.js:108-116)

A `TypeRef` is the JSON object the server returns for a field's `type` under
the selection the tool sends: a `name` (possibly null) and either no `ofType`
key at all / a null one (`leaf`) or a nested object (`wrap`). -/

inductive TypeRef where
  | leaf (name : Option String)
  | wrap (name : Option String) (ofType : TypeRef)

inductive IntrospectError where
  | cannotGetType
  | failedToInspect (key : String)
deriving DecidableEq

/-- JS truthiness of `type.name`: present and non-empty. -/
def jsTruthyName : Option String → Bool
  | none => false
  | some s => !(s == "")

/-- `getTypeName` (src/index.js:108-116): return a truthy `name`; otherwise
recurse into a truthy `ofType`; otherwise throw `Cannot get type`. -/
def getTypeName : TypeRef → Except IntrospectError String
  | .leaf name => if jsTruthyName name then .ok (name.getD "") else .error .cannotGetType
  | .wrap name ofType =>
    if jsTruthyName name then .ok (name.getD "") else getTypeName ofType

/-- A server-side GraphQL type: a named type, or a NonNull/List wrapper
(whose own introspected `name` is null) around an inner type. -/
inductive GqlType where
  | named (n : String)
  | wrapper (inner : GqlType)

def GqlType.wrapperCount : GqlType → Nat
  | .named _ => 0
  | .wrapper t => t.wrapperCount + 1

def GqlType.innerName : GqlType → String
  | .named n => n
  | .wrapper t => t.innerName

/-- What the server returns for a type under a selection with `d` nested
`ofType` layers (the query at src/index.js:136 selects
`type \x7b name ofType \x7b name ofType \x7b name ofType \x7b name ofType \x7b name \x7d\x7d\x7d\x7d\x7d`):
a named type reports its name with `ofType` null; a wrapper reports a null
name and, while selection depth remains, its inner type one level shallower;
at depth 0 `ofType` is not selected at all. -/
def introspectTypeRef : GqlType → Nat → TypeRef
  | .named n, _ => .leaf (some n)
  | .wrapper _, 0 => .leaf none
  | .wrapper t, d + 1 => .wrap none (introspectTypeRef t d)

/-- The field-introspection query (src/index.js:136) nests exactly four
`ofType` wrapper layers below the outermost `type` object. -/
def fieldTypeSelectionDepth : Nat := 4

/-! ### The field cache and `introspectFields` (src/index.js:117-151)

`introspectionFieldsCache` is a JS object keyed by `path.join()` (the
comma-join of the path).  It is embedded as an association list with the most
recent assignment first; `cacheLookup` returns the most recent binding, so
consing models assignment.  A schema is abstracted to the fields the server
reports per type name: `result.__type?.fields ?? []` collapses an unknown
type (`__type` null) and a scalar type (`fields` null) into the empty
list. -/

structure SchemaField where
  name : String
  type : TypeRef

structure CacheEntry where
  fields : Option (List String)
  type : String
deriving DecidableEq

def Cache : Type := List (String × CacheEntry)

def Schema : Type := String → List SchemaField

def cacheLookup : Cache → String → Option CacheEntry
  | [], _ => none
  | (k, e) :: rest, key => if k = key then some e else cacheLookup rest key

def cacheInsert (cache : Cache) (key : String) (e : CacheEntry) : Cache :=
  (key, e) :: cache

/-- `path.join()` — JS `Array.prototype.join` with its default `","`. -/
def pathKey (path : List String) : String := String.intercalate "," path

/-- The loop over `result.__type?.fields ?? []` (src/index.js:142-146): for
each reported field, an entry holding only the field's leaf type name is
written at the child path key, and the field name is collected; a
`getTypeName` throw aborts the whole resolution. -/
def cacheChildren (path : List String) :
    List SchemaField → Cache → Except IntrospectError (List String × Cache)
  | [], cache => .ok ([], cache)
  | field :: rest, cache =>
    match getTypeName field.type with
    | .error e => .error e
    | .ok typeName =>
      match cacheChildren path rest
          (cacheInsert cache (pathKey (path ++ [field.name])) ⟨none, typeName⟩) with
      | .error e => .error e
      | .ok (names, cache1) => .ok (field.name :: names, cache1)

/-- The tail of `introspectFields` after the type name is known
(src/index.js:135-150): one introspection request, the child-caching loop,
then the `\x7b fields, type \x7d` entry is stored at this path's key and the
field list returned.  The final `Nat` counts the introspection requests
issued by the whole call. -/
def introspectFieldsStep (schema : Schema) (path : List String) (type : String)
    (cache : Cache) (requestsSoFar : Nat) :
    Except IntrospectError (List String × Cache × Nat) :=
  match cacheChildren path (schema type) cache with
  | .error e => .error e
  | .ok (fields, cache1) =>
    .ok (fields, cacheInsert cache1 (pathKey path) ⟨some fields, type⟩, requestsSoFar + 1)

/-- `introspectFields(path)` (src/index.js:119-151), with the path passed in
reverse order so that the ancestor recursion — the source recurses on
`path.slice(0, -1)`, dropping the last component — is structural on the
list.  `introspectFields` below restores the source calling convention.

The guard `introspectionFieldsCache[path.join()]?.fields` is truthy exactly
when an entry exists whose `fields` key holds an array (JS arrays, even
empty ones, are truthy); a bare `\x7b type \x7d` entry is a miss.  On a miss
with a non-empty path, the parent is resolved first, then this path's entry
(written by the parent's child loop) supplies the type name; a still-missing
entry throws `Failed to inspect`.  The source performs the cache check once
before the `path.length > 0` branch; here the identical check opens each of
the two path arms so that the recursion is compiled structurally. -/
def introspectFieldsRev (schema : Schema) :
    List String → Cache → Except IntrospectError (List String × Cache × Nat)
  | [], cache =>
    match (cacheLookup cache (pathKey ([] : List String).reverse)).bind
        CacheEntry.fields with
    | some fields => .ok (fields, cache, 0)
    | none => introspectFieldsStep schema [] "Query" cache 0
  | x :: rprev, cache =>
    match (cacheLookup cache (pathKey ((x :: rprev).reverse))).bind
        CacheEntry.fields with
    | some fields => .ok (fields, cache, 0)
    | none =>
      match introspectFieldsRev schema rprev cache with
      | .error e => .error e
      | .ok (_, cache1, n1) =>
        match cacheLookup cache1 (pathKey ((x :: rprev).reverse)) with
        | none => .error (.failedToInspect (pathKey ((x :: rprev).reverse)))
        | some entry =>
          introspectFieldsStep schema ((x :: rprev).reverse) entry.type cache1 n1

/-- `introspectFields` with the source's calling convention (the path in
root-to-leaf order). -/
def introspectFields (schema : Schema) (path : List String) (cache : Cache) :
    Except IntrospectError (List String × Cache × Nat) :=
  introspectFieldsRev schema path.reverse cache

/-! ### `introspectMutations` (src/index.js:153-166) -/

structure MutationDescriptor where
  name : String
  args : List String
deriving DecidableEq

/-- `introspectMutations` as a state transformer on the process-wide
`introspectionMuationCache` (null before the first success): given the
`\x7b name, args \x7d` descriptors the server would report for the
`"Mutation"` type, it returns (value handed to the caller, new cache, number
of introspection requests issued).  A truthy cache (any array, even empty)
is returned as-is; on a miss the mapped descriptor list is assigned to the
cache, but the function body has no `return` statement on that path
(src/index.js:160-166), so the caller receives `undefined` (`none`). -/
def introspectMutations (serverFields : List MutationDescriptor)
    (cache : Option (List MutationDescriptor)) :
    Option (List MutationDescriptor) × Option (List MutationDescriptor) × Nat :=
  match cache with
  | some cached => (some cached, some cached, 0)
  | none =>
    let descriptors := serverFields.map fun it => MutationDescriptor.mk it.name it.args
    (none, some descriptors, 1)

/-! ### `buildMutation` (src/index.js:344-366) -/

/-- The guard `mutation.args > 2` (src/index.js:350), where `args` is an
array of argument objects.  The JS abstract relational comparison applies
`ToPrimitive` to the array — `Array.prototype.toString`, the comma-join of
its elements, each a plain object stringifying to `"[object Object]"` — and
then compares numerically: `ToNumber("")` is `0` for the empty array, and
`ToNumber` of any join containing `"[object Object]"` is `NaN`; both
`0 > 2` and `NaN > 2` are `false`. -/
def jsArgsGreaterThanTwo (args : List String) : Bool :=
  match args with
  | [] => decide ((0 : Int) > 2)
  | _ :: _ => false

/-- Whether `buildMutation` presents the MultiSelect prompt over argument
names (src/index.js:350-351). -/
def buildMutationPromptShown (mutation : MutationDescriptor) : Bool :=
  jsArgsGreaterThanTwo mutation.args

/-- The value of `chosenArgs` after the branch (src/index.js:349-354): when
the guard fires, the MultiSelect result is awaited but assigned to nothing,
leaving `chosenArgs` undefined (`none`); otherwise every argument name. -/
def buildMutationChosenArgs (mutation : MutationDescriptor) : Option (List String) :=
  if jsArgsGreaterThanTwo mutation.args then none
  else some mutation.args

/-- The template text built at src/index.js:356-361: header with the mutation
name, one `    arg: $\x7barg\x7d` placeholder line per chosen argument, and
the closing lines. -/
def renderMutationTemplate (name : String) (chosenArgs : List String) : String :=
  "mutation \x7b\n  " ++ name ++ "(\n" ++
    String.join (chosenArgs.map fun arg => "    " ++ arg ++ ": $\x7b" ++ arg ++ "\x7d\n") ++
    "  )\n\x7d"

inductive JsError where
  | referenceError (ident : String)
  | typeError (msg : String)
deriving DecidableEq

/-- The template `buildMutation` hands to the Snippet prompt: iterating
`for (const arg of chosenArgs)` (src/index.js:358) over an undefined
`chosenArgs` throws a TypeError; otherwise the placeholder template is
rendered from the chosen argument names. -/
def buildMutationTemplate (mutation : MutationDescriptor) : Except JsError String :=
  match buildMutationChosenArgs mutation with
  | none => .error (.typeError "chosenArgs is not iterable")
  | some args => .ok (renderMutationTemplate mutation.name args)

/-! ### The mutation session menu `executeMutation` (src/index.js:326-342) -/

/-- The choices offered by the post-run Select prompt (src/index.js:330). -/
def executeMutationChoices : List String := ["edit", "store", "exit", "new mutation"]

/-- Identifier resolution inside `executeMutation(mutationString, name)`:
only its two parameters are in scope (no module-level `queryString` binding
exists in src/index.js), so any other identifier throws a ReferenceError
when evaluated. -/
def executeMutationLookup (mutationString name ident : String) :
    Except JsError String :=
  if ident = "mutationString" then .ok mutationString
  else if ident = "name" then .ok name
  else .error (.referenceError ident)

inductive MutSessionStep where
  | rerunMutation (operation name : String)
  | editMutation (operation name : String)
  | newMutation
  | storeMutation (operation name : String)
  | exitSession
  | fallthrough
deriving DecidableEq

/-- The dispatch on the selected menu entry in `executeMutation`
(src/index.js:331-341).  Every branch that forwards the operation string
evaluates the identifier `queryString` (not the `mutationString` parameter
actually in hand). -/
def executeMutationStep (mutationString name op : String) :
    Except JsError MutSessionStep :=
  if op = "rerun" then
    (executeMutationLookup mutationString name "queryString").map
      fun q => .rerunMutation q name
  else if op = "edit" then
    (executeMutationLookup mutationString name "queryString").map
      fun q => .editMutation q name
  else if op = "new mutation" then .ok .newMutation
  else if op = "store" then
    (executeMutationLookup mutationString name "queryString").map
      fun q => .storeMutation q name
  else if op = "exit" then .ok .exitSession
  else .ok .fallthrough

/-- The demonstration schema: `Query` has a field `user` of type `User`,
`User` has a scalar field `id` of type `Int`. -/
def demoSchema : Schema := fun t =>
  if t = "Query" then [⟨"user", .leaf (some "User")⟩]
  else if t = "User" then [⟨"id", .leaf (some "Int")⟩]
  else []

/-- The cache after resolving `["user"]` from cold on `demoSchema`. -/
def demoCache : Cache :=
  [("user", ⟨some ["id"], "User"⟩), ("user,id", ⟨none, "Int"⟩),
    ("", ⟨some ["user"], "Query"⟩), ("user", ⟨none, "User"⟩)]

/-! ### Well-formedness notions for the rendered query text (C4)

GraphQL field names never contain brace characters; `keyOk` captures that
assumption about the keys of an OperationTree. -/

def keyOk (k : String) : Bool :=
  !(decide (openBrace ∈ k.data)) && !(decide (closeBrace ∈ k.data))

def forestKeysOk : List (String × OpTree) → Bool
  | [] => true
  | (k, .node kids) :: rest => keyOk k && forestKeysOk kids && forestKeysOk rest

/-- Dyck-style scan: `balScan cs a` walks the characters with `a` currently
open braces, failing if a close brace arrives with none open, and returns the
number still open at the end. -/
def balScan : List Char → Nat → Option Nat
  | [], acc => some acc
  | c :: cs, acc =>
    if c = openBrace then balScan cs (acc + 1)
    else if c = closeBrace then
      match acc with
      | 0 => none
      | acc1 + 1 => balScan cs acc1
    else balScan cs acc

/-- Syntactically balanced braces: the scan starts and ends with zero open
braces and never goes negative. -/
def braceBalanced (s : String) : Bool := balScan s.data 0 == some 0

/-- Concatenate lines, each terminated by a newline. -/
def unlines : List String → String
  | [] => ""
  | l :: ls => l ++ "\n" ++ unlines ls

/-- The line structure the spec describes for the rendered selection set:
at nesting depth `d` (an indent of `d` spaces, starting from 2 and growing by
exactly 2 per level), a leaf field is a bare name on its own line, and a
non-leaf field contributes an opening `key \x7b` line, its children at
`d + 2`, and a matching indented `\x7d` line. -/
def specLines : List (String × OpTree) → Nat → List String
  | [], _ => []
  | (key, .node kids) :: rest, d =>
    (if kids.length ≠ 0 then
      (spaces d ++ key ++ " \x7b") :: (specLines kids (d + 2) ++ [spaces d ++ "\x7d"])
    else [spaces d ++ key]) ++ specLines rest d

def lastIsOpen (l : String) : Bool := l.data.getLast? == some openBrace

def lastIsClose (l : String) : Bool := l.data.getLast? == some closeBrace

/-- Adjacent-line condition ruling out empty brace pairs: a line that opens a
block is never immediately followed by a line that closes one. -/
def NoOpenClose (a b : String) : Prop := lastIsOpen a = true → lastIsClose b = false

/-- The example tree of the spec scenario: `user` with scalar child `id`. -/
def demoTree : OpTree := .node [("user", .node [("id", .node [])])]

/-! ## Theorems -/

/-! C4 helper lemmas: the brace scan over the rendered text. -/

theorem balScan_append (xs ys : List Char) (a b : Nat)
    (h : balScan xs a = some b) : balScan (xs ++ ys) a = balScan ys b := by
  induction xs generalizing a with
  | nil =>
    simp only [balScan, Option.some.injEq] at h
    subst h
    simp
  | cons c cs ih =>
    simp only [List.cons_append, balScan] at h ⊢
    by_cases hc : c = openBrace
    · rw [if_pos hc] at h ⊢
      exact ih _ h
    · rw [if_neg hc] at h ⊢
      by_cases hc2 : c = closeBrace
      · rw [if_pos hc2] at h ⊢
        match a with
        | 0 => simp at h
        | a1 + 1 => exact ih _ h
      · rw [if_neg hc2] at h ⊢
        exact ih _ h

theorem balScan_of_noBrace (xs : List Char)
    (hx : ∀ c ∈ xs, ¬c = openBrace ∧ ¬c = closeBrace) :
    ∀ a, balScan xs a = some a := by
  induction xs with
  | nil => intro a; rfl
  | cons c cs ih =>
    intro a
    obtain ⟨h1, h2⟩ := hx c (by simp)
    simp only [balScan, if_neg h1, if_neg h2]
    exact ih (fun x hxmem => hx x (by simp [hxmem])) a

theorem spaces_noBrace (n : Nat) :
    ∀ c ∈ (spaces n).data, ¬c = openBrace ∧ ¬c = closeBrace := by
  intro c hc
  have hc1 : c = ' ' := List.eq_of_mem_replicate (by simpa [spaces] using hc)
  subst hc1
  exact ⟨by decide, by decide⟩

theorem key_noBrace (k : String) (hk : keyOk k = true) :
    ∀ c ∈ k.data, ¬c = openBrace ∧ ¬c = closeBrace := by
  simp only [keyOk, Bool.and_eq_true, Bool.not_eq_true', decide_eq_false_iff_not] at hk
  intro c hc
  exact ⟨fun he => hk.1 (he ▸ hc), fun he => hk.2 (he ▸ hc)⟩

theorem balScan_addQuery : ∀ (cs : List (String × OpTree)) (d : Nat),
    forestKeysOk cs = true → ∀ a, balScan (addQuery cs d).data a = some a := by
  intro cs d
  induction cs, d using addQuery.induct with
  | case1 d => intro _ a; simp only [addQuery]; rfl
  | case2 key kids rest depth ih1 ih2 =>
    intro hkeys a
    simp only [forestKeysOk, Bool.and_eq_true] at hkeys
    obtain ⟨⟨hkey, hkids⟩, hrest⟩ := hkeys
    simp only [addQuery]
    by_cases hk : kids.length ≠ 0
    · rw [if_pos hk]
      simp only [String.data_append, List.append_assoc]
      rw [balScan_append _ _ _ _ (balScan_of_noBrace _ (spaces_noBrace depth) a)]
      rw [balScan_append _ _ _ _ (balScan_of_noBrace _ (key_noBrace key hkey) a)]
      rw [balScan_append _ _ _ _ (show balScan (" \x7b\n").data a = some (a + 1) from rfl)]
      rw [balScan_append _ _ _ _ (ih1 hkids (a + 1))]
      rw [balScan_append _ _ _ _ (balScan_of_noBrace _ (spaces_noBrace depth) (a + 1))]
      rw [balScan_append _ _ _ _ (show balScan ("\x7d\n").data (a + 1) = some a from rfl)]
      exact ih2 hrest a
    · rw [if_neg hk]
      simp only [String.data_append, List.append_assoc]
      rw [balScan_append _ _ _ _ (balScan_of_noBrace _ (spaces_noBrace depth) a)]
      rw [balScan_append _ _ _ _ (balScan_of_noBrace _ (key_noBrace key hkey) a)]
      rw [balScan_append _ _ _ _ (show balScan ("\n").data a = some a from rfl)]
      exact ih2 hrest a

theorem unlines_append (as bs : List String) :
    unlines (as ++ bs) = unlines as ++ unlines bs := by
  induction as with
  | nil => simp [unlines, String.empty_append]
  | cons l ls ih =>
    simp only [List.cons_append, unlines, List.append_eq, ih, String.append_assoc]

/-- The rendered text is exactly the newline-joined spec line structure. -/
theorem addQuery_eq_unlines : ∀ (cs : List (String × OpTree)) (d : Nat),
    addQuery cs d = unlines (specLines cs d) := by
  intro cs d
  induction cs, d using addQuery.induct with
  | case1 d => simp only [addQuery, specLines, unlines]
  | case2 key kids rest depth ih1 ih2 =>
    simp only [addQuery, specLines]
    by_cases hk : kids.length ≠ 0
    · rw [if_pos hk, if_pos hk, ih1, ih2, List.cons_append]
      simp only [unlines]
      rw [unlines_append, unlines_append]
      simp only [unlines]
      rw [show (" \x7b\n" : String) = " \x7b" ++ "\n" from rfl,
        show ("\x7d\n" : String) = "\x7d" ++ "\n" from rfl]
      simp [String.append_assoc, String.append_empty]
    · rw [if_neg hk, if_neg hk, ih2, List.singleton_append]
      simp only [unlines]

theorem specLines_ne_nil (cs : List (String × OpTree)) (d : Nat) (hne : cs ≠ []) :
    specLines cs d ≠ [] := by
  match cs with
  | (key, .node kids) :: rest =>
    simp only [specLines]
    by_cases hk : kids.length ≠ 0
    · rw [if_pos hk]; simp
    · rw [if_neg hk]; simp

theorem lastNe (l : List Char) (c : Char) (h : ∀ x ∈ l, ¬x = c) :
    (l.getLast? == some c) = false := by
  cases hl : l.getLast? with
  | none => rfl
  | some x =>
    have hx : x ∈ l := by
      obtain ⟨hne, heq⟩ :=
        List.mem_getLast?_eq_getLast (l := l) (x := x) (by rw [hl]; rfl)
      rw [heq]
      exact List.getLast_mem hne
    simp only [beq_eq_false_iff_ne, ne_eq, Option.some.injEq]
    exact h x hx

theorem lastIsClose_field (d : Nat) (k : String) (hk : keyOk k = true) :
    lastIsClose (spaces d ++ k) = false := by
  apply lastNe
  intro x hx
  rcases List.mem_append.mp (by simpa [String.data_append] using hx) with h | h
  · exact (spaces_noBrace d x h).2
  · exact (key_noBrace k hk x h).2

theorem lastIsOpen_field (d : Nat) (k : String) (hk : keyOk k = true) :
    lastIsOpen (spaces d ++ k) = false := by
  apply lastNe
  intro x hx
  rcases List.mem_append.mp (by simpa [String.data_append] using hx) with h | h
  · exact (spaces_noBrace d x h).1
  · exact (key_noBrace k hk x h).1

theorem lastIsClose_openLine (d : Nat) (k : String) (hk : keyOk k = true) :
    lastIsClose (spaces d ++ k ++ " \x7b") = false := by
  apply lastNe
  intro x hx
  simp only [String.data_append, List.mem_append] at hx
  rcases hx with (h | h) | h
  · exact (spaces_noBrace d x h).2
  · exact (key_noBrace k hk x h).2
  · rcases (by simpa using h : x = ' ' ∨ x = '\x7b') with rfl | rfl
    · decide
    · decide

theorem lastIsOpen_closeLine (d : Nat) :
    lastIsOpen (spaces d ++ "\x7d") = false := by
  apply lastNe
  intro x hx
  simp only [String.data_append, List.mem_append] at hx
  rcases hx with h | h
  · exact (spaces_noBrace d x h).1
  · have hx2 : x = '\x7d' := by simpa using h
    subst hx2
    decide

/-- Along `specLines` no opening line is immediately followed by a closing
line, the first line never closes a block, and the final line never leaves a
block open. -/
theorem specLines_chain : ∀ (cs : List (String × OpTree)) (d : Nat),
    forestKeysOk cs = true →
      List.Chain' NoOpenClose (specLines cs d) ∧
        (∀ l ∈ (specLines cs d).head?, lastIsClose l = false) ∧
        (∀ l ∈ (specLines cs d).getLast?, lastIsOpen l = false) := by
  intro cs d
  induction cs, d using specLines.induct with
  | case1 d => intro _; simp [specLines]
  | case2 key kids rest d ih1 ih2 =>
    intro hkeys
    simp only [forestKeysOk, Bool.and_eq_true] at hkeys
    obtain ⟨⟨hkey, hkids⟩, hrest⟩ := hkeys
    obtain ⟨ihc1, ihh1, ihl1⟩ := ih1 hkids
    obtain ⟨ihc2, ihh2, ihl2⟩ := ih2 hrest
    simp only [specLines]
    by_cases hk : kids.length ≠ 0
    · rw [if_pos hk]
      have hKne : specLines kids (d + 2) ≠ [] :=
        specLines_ne_nil kids (d + 2) (fun hnil => hk (by simp [hnil]))
      refine ⟨?_, ?_, ?_⟩
      · rw [List.cons_append, List.chain'_cons']
        constructor
        · intro y hy
          intro _
          rw [List.append_assoc, List.head?_append] at hy
          cases hKhead : (specLines kids (d + 2)).head? with
          | none => exact absurd (List.head?_eq_none_iff.mp hKhead) hKne
          | some k0 =>
            rw [hKhead] at hy
            obtain rfl : k0 = y := by simpa using hy
            exact ihh1 _ hKhead
        · rw [List.append_assoc, List.chain'_append]
          refine ⟨ihc1, ?_, ?_⟩
          · rw [List.chain'_append]
            refine ⟨List.chain'_singleton _, ihc2, ?_⟩
            intro x hx y _
            obtain rfl : spaces d ++ "\x7d" = x := by simpa using hx
            intro hopen
            rw [lastIsOpen_closeLine d] at hopen
            cases hopen
          · intro x hx y _
            intro hopen
            rw [ihl1 x hx] at hopen
            cases hopen
      · intro l hl
        obtain rfl : spaces d ++ key ++ " \x7b" = l := by simpa using hl
        exact lastIsClose_openLine d key hkey
      · intro l hl
        rw [List.getLast?_append] at hl
        cases hR : (specLines rest d).getLast? with
        | some r =>
          rw [hR] at hl
          obtain rfl : r = l := by simpa using hl
          exact ihl2 _ hR
        | none =>
          rw [hR, Option.none_or] at hl
          rw [show (spaces d ++ key ++ " \x7b") ::
                (specLines kids (d + 2) ++ [spaces d ++ "\x7d"]) =
              ((spaces d ++ key ++ " \x7b") :: specLines kids (d + 2)) ++
                [spaces d ++ "\x7d"] from (List.cons_append _ _ _).symm,
            List.getLast?_append] at hl
          obtain rfl : spaces d ++ "\x7d" = l := by simpa using hl
          exact lastIsOpen_closeLine d
    · rw [if_neg hk]
      refine ⟨?_, ?_, ?_⟩
      · rw [List.singleton_append, List.chain'_cons']
        refine ⟨?_, ihc2⟩
        intro y _ hopen
        rw [lastIsOpen_field d key hkey] at hopen
        cases hopen
      · intro l hl
        rw [List.singleton_append] at hl
        obtain rfl : spaces d ++ key = l := by simpa using hl
        exact lastIsClose_field d key hkey
      · intro l hl
        rw [List.getLast?_append] at hl
        cases hR : (specLines rest d).getLast? with
        | some r =>
          rw [hR] at hl
          obtain rfl : r = l := by simpa using hl
          exact ihl2 _ hR
        | none =>
          rw [hR, Option.none_or] at hl
          obtain rfl : spaces d ++ key = l := by simpa using hl
          exact lastIsOpen_field d key hkey

/-- C4: for every OperationTree (every node's selection is either empty — a
leaf — or rendered as a block, so non-leaf nodes always carry at least one
child) whose field names are brace-free and whose root selection is
non-empty, the rendered text has syntactically balanced braces; it consists
exactly of the `query \x7b` header, the spec's line structure — each leaf
field a bare indented name on its own line, each nested block indented by
exactly 2 more spaces — and the closing brace; and no block-opening line is
immediately followed by a block-closing line, so no empty brace pair occurs
anywhere in the output. -/
theorem queryTreeToString_wellformed (q : OpTree)
    (hkeys : forestKeysOk q.fields = true) (hne : q.fields ≠ []) :
    braceBalanced (queryTreeToString q) = true ∧
      queryTreeToString q =
        "query \x7b\n" ++ unlines (specLines q.fields 2) ++ "\x7d" ∧
      List.Chain' NoOpenClose
        ("query \x7b" :: (specLines q.fields 2 ++ ["\x7d"])) := by
  refine ⟨?_, ?_, ?_⟩
  · simp only [braceBalanced, queryTreeToString]
    simp only [String.data_append, List.append_assoc]
    rw [balScan_append _ _ _ _ (show balScan ("query \x7b\n").data 0 = some 1 from rfl)]
    rw [balScan_append _ _ _ _ (balScan_addQuery q.fields 2 hkeys 1)]
    rfl
  · simp only [queryTreeToString]
    rw [addQuery_eq_unlines]
  · obtain ⟨hc, hh, hl⟩ := specLines_chain q.fields 2 hkeys
    rw [List.chain'_cons']
    constructor
    · intro y hy
      intro _
      rw [List.head?_append] at hy
      cases hKhead : (specLines q.fields 2).head? with
      | none =>
        exact absurd (List.head?_eq_none_iff.mp hKhead)
          (specLines_ne_nil q.fields 2 hne)
      | some k0 =>
        rw [hKhead] at hy
        obtain rfl : k0 = y := by simpa using hy
        exact hh _ hKhead
    · rw [List.chain'_append]
      refine ⟨hc, List.chain'_singleton _, ?_⟩
      intro x hx y _
      intro hopen
      rw [hl x hx] at hopen
      cases hopen

/-- Witness for C4 on the `user`/`id` example tree. -/
theorem queryTreeToString_wellformed_witness :
    braceBalanced (queryTreeToString demoTree) = true ∧
      queryTreeToString demoTree =
        "query \x7b\n" ++ unlines (specLines demoTree.fields 2) ++ "\x7d" ∧
      List.Chain' NoOpenClose
        ("query \x7b" :: (specLines demoTree.fields 2 ++ ["\x7d"])) :=
  queryTreeToString_wellformed demoTree
    (by simp only [demoTree, OpTree.fields, forestKeysOk]; decide)
    (by simp [demoTree, OpTree.fields])

/-- C5: for the OperationTree selecting `user` and, below it, the scalar
`id`, `queryTreeToString` renders exactly
`query \x7b\n  user \x7b\n    id\n  \x7d\n\x7d`. -/
theorem queryTreeToString_user_id_example :
    queryTreeToString (.node [("user", .node [("id", .node [])])]) =
      "query \x7b\n  user \x7b\n    id\n  \x7d\n\x7d" := by
  simp [queryTreeToString, OpTree.fields, addQuery, spaces]

/-- C6: a 2xx response whose parsed JSON body carries an `errors` array makes
`runQuery` fail with the QueryError kind, surfacing the messages, and never
returns data. -/
theorem runQuery_queryError {α : Type} (response : HttpResponse α)
    (result : GqlResult α) (messages : List String)
    (hok : responseOk response.status = true)
    (hbody : response.body = some result)
    (herrors : result.errors = some messages) :
    runQuery response = .error (.queryError messages) ∧
      ∀ d : Option α, runQuery response ≠ .ok d := by
  have h : runQuery response = .error (.queryError messages) := by
    simp [runQuery, hok, hbody, herrors]
  exact ⟨h, fun d hd => by simp [h] at hd⟩

/-- Witness for C6 at the response `200 / \x7berrors: [\x7bmessage: "X"\x7d]\x7d`. -/
theorem runQuery_queryError_witness :
    runQuery (HttpResponse.mk 200 (some (GqlResult.mk (some ["X"]) none)) :
        HttpResponse String) = .error (.queryError ["X"]) ∧
      ∀ d : Option String,
        runQuery (HttpResponse.mk 200 (some (GqlResult.mk (some ["X"]) none)) :
          HttpResponse String) ≠ .ok d :=
  runQuery_queryError _ _ _ (by decide) rfl rfl

/-- C7: a non-2xx status makes `runQuery` fail with the HTTPError kind,
whatever the body holds — in particular before and without JSON-parsing it or
inspecting an `errors` array. -/
theorem runQuery_httpError {α : Type} (response : HttpResponse α)
    (hstatus : response.status < 200 ∨ 300 ≤ response.status) :
    runQuery response = .error (.httpError response.status) := by
  have hok : responseOk response.status = false := by
    simp only [responseOk, Bool.and_eq_false_iff, decide_eq_false_iff_not, not_le, not_lt]
    omega
  simp [runQuery, hok]

/-- Witness for C7 at status 500 with a body that even contains an `errors`
array: the failure is still the HTTPError kind. -/
theorem runQuery_httpError_witness :
    runQuery (HttpResponse.mk 500 (some (GqlResult.mk (some ["X"]) none)) :
        HttpResponse String) = .error (.httpError 500) :=
  runQuery_httpError _ (by decide)

/-- C9: a loaded file whose content contains both `"query"` and `"mutation"`
as substrings is classified as a query — the `"query"` check precedes the
`"mutation"` check in `main`. -/
theorem mainClassifyContent_query_precedence (content : String)
    (hq : jsIncludes content "query" = true)
    (_hm : jsIncludes content "mutation" = true) :
    mainClassifyContent content = some OpKind.query := by
  simp [mainClassifyContent, hq]

/-- Witness for C9 on a content holding both substrings. -/
theorem mainClassifyContent_query_precedence_witness :
    jsIncludes "mutation run query" "query" = true ∧
      jsIncludes "mutation run query" "mutation" = true ∧
      mainClassifyContent "mutation run query" = some OpKind.query :=
  ⟨by decide, by decide,
    mainClassifyContent_query_precedence _ (by decide) (by decide)⟩

/-- C2 counterexample: on the very first call (cold cache) the function
assigns the cache but returns nothing, so the caller receives `undefined`
rather than the descriptor list — the claim that the list is returned on
every call fails. -/
theorem introspectMutations_first_call_returns_undefined :
    (introspectMutations [MutationDescriptor.mk "loginLegacy" ["authToken"]]
        none).1 = none ∧
      (introspectMutations [MutationDescriptor.mk "loginLegacy" ["authToken"]]
          none).1 ≠
        some [MutationDescriptor.mk "loginLegacy" ["authToken"]] := by
  exact ⟨rfl, by simp [introspectMutations]⟩

/-- C2 amended: the first call issues the single introspection request,
caches the mapped `\x7bname, args\x7d` list for the process lifetime and
returns `undefined`; every later call returns the cached list unchanged with
no further request. -/
theorem introspectMutations_cached (serverFields : List MutationDescriptor) :
    introspectMutations serverFields none =
        (none, some (serverFields.map fun it => MutationDescriptor.mk it.name it.args), 1) ∧
      ∀ cached : List MutationDescriptor,
        introspectMutations serverFields (some cached) = (some cached, some cached, 0) :=
  ⟨rfl, fun _ => rfl⟩

/-- C1: the guard `mutation.args > 2` coerces the argument array to a string
and is false for every argument list, so the multi-choice prompt is never
presented — in particular not for a three-argument descriptor, whose three
argument names all end up as placeholders in the rendered template. -/
theorem buildMutation_guard_never_prompts :
    (∀ args : List String, jsArgsGreaterThanTwo args = false) ∧
      buildMutationPromptShown (MutationDescriptor.mk "m" ["a", "b", "c"]) = false ∧
      buildMutationTemplate (MutationDescriptor.mk "m" ["a", "b", "c"]) =
        .ok "mutation \x7b\n  m(\n    a: $\x7ba\x7d\n    b: $\x7bb\x7d\n    c: $\x7bc\x7d\n  )\n\x7d" := by
  refine ⟨fun args => ?_, rfl, rfl⟩
  cases args <;> rfl

/-- C8: the mutation post-run menu offers only edit, store, exit and
new mutation (no rerun); the edit and store branches evaluate the unbound
identifier `queryString` and so throw a ReferenceError, while exit and
new mutation complete normally. -/
theorem executeMutation_menu_behaviour (mutationString name : String) :
    executeMutationChoices = ["edit", "store", "exit", "new mutation"] ∧
      "rerun" ∉ executeMutationChoices ∧
      executeMutationStep mutationString name "edit" =
        .error (.referenceError "queryString") ∧
      executeMutationStep mutationString name "store" =
        .error (.referenceError "queryString") ∧
      executeMutationStep mutationString name "exit" = .ok .exitSession ∧
      executeMutationStep mutationString name "new mutation" = .ok .newMutation :=
  ⟨rfl, by decide, rfl, rfl, rfl, rfl⟩

/-! C10 helper lemmas: `getTypeName` against a depth-`d` truncated type
object. -/

theorem getTypeName_introspectTypeRef_le (t : GqlType) :
    ∀ d : Nat, t.wrapperCount ≤ d → t.innerName ≠ "" →
      getTypeName (introspectTypeRef t d) = .ok t.innerName := by
  induction t with
  | named n =>
    intro d _ hname
    simp only [GqlType.innerName] at hname
    simp [introspectTypeRef, getTypeName, GqlType.innerName, jsTruthyName,
      hname]
  | wrapper t ih =>
    intro d hd hname
    match d, hd with
    | dd + 1, hd =>
      simpa [introspectTypeRef, getTypeName, jsTruthyName, GqlType.innerName]
        using ih dd (by simpa [GqlType.wrapperCount] using hd) hname

theorem getTypeName_introspectTypeRef_gt (t : GqlType) :
    ∀ d : Nat, d < t.wrapperCount →
      getTypeName (introspectTypeRef t d) = .error .cannotGetType := by
  induction t with
  | named n => intro d hd; simp [GqlType.wrapperCount] at hd
  | wrapper t ih =>
    intro d hd
    match d with
    | 0 => simp [introspectTypeRef, getTypeName, jsTruthyName]
    | dd + 1 =>
      simpa [introspectTypeRef, getTypeName, jsTruthyName]
        using ih dd (by simpa [GqlType.wrapperCount] using hd)

/-- C10: the field-introspection query fetches only four nested `ofType`
layers, so `getTypeName` resolves the innermost named type for every type
with at most four NonNull/List wrappers and throws the fatal
`Cannot get type` error for every type with more. -/
theorem getTypeName_selection_depth (t : GqlType) (hname : t.innerName ≠ "") :
    (t.wrapperCount ≤ fieldTypeSelectionDepth →
        getTypeName (introspectTypeRef t fieldTypeSelectionDepth) = .ok t.innerName) ∧
      (fieldTypeSelectionDepth < t.wrapperCount →
        getTypeName (introspectTypeRef t fieldTypeSelectionDepth) =
          .error .cannotGetType) :=
  ⟨fun hle => getTypeName_introspectTypeRef_le t _ hle hname,
    fun hgt => getTypeName_introspectTypeRef_gt t _ hgt⟩

/-! C3 helper lemmas: a successful `introspectFields` run leaves a populated
`fields` entry at its own path key. -/

theorem cacheLookup_cacheInsert_self (cache : Cache) (key : String)
    (e : CacheEntry) : cacheLookup (cacheInsert cache key e) key = some e := by
  simp [cacheInsert, cacheLookup]

theorem introspectFieldsStep_populates {schema : Schema} {path : List String}
    {type : String} {cache : Cache} {n : Nat} {fs : List String} {c1 : Cache}
    {m : Nat} (h : introspectFieldsStep schema path type cache n = .ok (fs, c1, m)) :
    cacheLookup c1 (pathKey path) = some ⟨some fs, type⟩ := by
  unfold introspectFieldsStep at h
  split at h
  · exact absurd h (by simp)
  · simp only [Except.ok.injEq, Prod.mk.injEq] at h
    obtain ⟨h1, h2, _⟩ := h
    subst h1
    rw [← h2]
    exact cacheLookup_cacheInsert_self _ _ _

/-- A cache hit (an entry whose `fields` key holds an array) returns the
cached fields unchanged with no introspection request. -/
theorem introspectFieldsRev_hit (schema : Schema) (rpath : List String)
    (cache : Cache) (fields : List String)
    (hhit : (cacheLookup cache (pathKey rpath.reverse)).bind CacheEntry.fields =
      some fields) :
    introspectFieldsRev schema rpath cache = .ok (fields, cache, 0) := by
  cases rpath with
  | nil => simp only [introspectFieldsRev]; rw [hhit]
  | cons x rprev => simp only [introspectFieldsRev]; rw [hhit]

theorem introspectFieldsRev_populates (schema : Schema) (rpath : List String)
    (cache : Cache) (fs : List String) (c1 : Cache) (n : Nat)
    (h : introspectFieldsRev schema rpath cache = .ok (fs, c1, n)) :
    (cacheLookup c1 (pathKey rpath.reverse)).bind CacheEntry.fields = some fs := by
  cases rpath with
  | nil =>
    simp only [introspectFieldsRev] at h
    split at h
    · rename_i fields heq
      simp only [Except.ok.injEq, Prod.mk.injEq] at h
      obtain ⟨h1, h2, _⟩ := h
      subst h1
      rw [← h2]
      exact heq
    · have hstep := introspectFieldsStep_populates h
      simp only [List.reverse_nil] at hstep ⊢
      simp [hstep, CacheEntry.fields]
  | cons x rprev =>
    simp only [introspectFieldsRev] at h
    split at h
    · rename_i fields heq
      simp only [Except.ok.injEq, Prod.mk.injEq] at h
      obtain ⟨h1, h2, _⟩ := h
      subst h1
      rw [← h2]
      exact heq
    · split at h
      · exact absurd h (by simp)
      · split at h
        · exact absurd h (by simp)
        · have hstep := introspectFieldsStep_populates h
          simp only [List.reverse_cons] at hstep ⊢
          simp [hstep, CacheEntry.fields]

/-- C3: once `introspectFields` has resolved a path, a second call on the
same path is a pure cache read — it returns the identical field set, leaves
the cache untouched, and issues zero introspection requests. -/
theorem introspectFields_memoized (schema : Schema) (path : List String)
    (cache cache1 : Cache) (fields : List String) (n : Nat)
    (h : introspectFields schema path cache = .ok (fields, cache1, n)) :
    introspectFields schema path cache1 = .ok (fields, cache1, 0) := by
  have hpop := introspectFieldsRev_populates schema path.reverse cache fields cache1 n h
  exact introspectFieldsRev_hit schema path.reverse cache1 fields hpop

/-- Witness for C3: resolving `["user"]` from cold issues two introspection
requests (parent `Query`, then `User`); the second call on the same path
returns the same fields from cache with zero requests. -/
theorem introspectFields_memoized_witness :
    introspectFields demoSchema ["user"] [] = .ok (["id"], demoCache, 2) ∧
      introspectFields demoSchema ["user"] demoCache = .ok (["id"], demoCache, 0) :=
  ⟨rfl, introspectFields_memoized demoSchema ["user"] [] demoCache ["id"] 2 rfl⟩

/-- Witness for C10: a doubly wrapped `Int` resolves; a quintuply wrapped
`Int` hits the truncation and fails. -/
theorem getTypeName_selection_depth_witness :
    getTypeName (introspectTypeRef
        (.wrapper (.wrapper (.named "Int"))) fieldTypeSelectionDepth) = .ok "Int" ∧
      getTypeName (introspectTypeRef
        (.wrapper (.wrapper (.wrapper (.wrapper (.wrapper (.named "Int"))))))
        fieldTypeSelectionDepth) = .error .cannotGetType :=
  ⟨(getTypeName_selection_depth (.wrapper (.wrapper (.named "Int")))
      (by decide)).1 (by decide),
    (getTypeName_selection_depth
        (.wrapper (.wrapper (.wrapper (.wrapper (.wrapper (.named "Int"))))))
        (by decide)).2 (by decide)⟩

end DevGraphql
